import Mathlib

/-!
Verification development for the conversational-agent runtime
(`LineBot/agent`): output parser, ReAct reasoning loop, tool
registry/dispatcher, and tiered memory manager, shallowly embedded
from the Python source.

Strings are modelled as `List Char`.  The Python regular expressions
`r"Label: (.*?)(?=\n[A-Z]|$)"` used with `re.DOTALL` are modelled by an
explicit leftmost-search / lazy-capture function, and `json.loads` by an
executable recursive-descent JSON reader.
-/

namespace Agent

abbrev Str := List Char

/-- Python `str.strip()` whitespace (ASCII part). -/
def isPyWs (c : Char) : Bool :=
  c = ' ' || c = '\t' || c = '\n' || c = '\r' || c = Char.ofNat 11 || c = Char.ofNat 12

/-- Python `text.strip()`: drop whitespace from both ends. -/
def pyStrip (s : Str) : Str :=
  ((s.dropWhile isPyWs).reverse.dropWhile isPyWs).reverse

/-- The regex character class `[A-Z]`. -/
def isUpperAZ (c : Char) : Bool := 'A' ≤ c && c ≤ 'Z'

/-- Dollar anchor `$` without `re.MULTILINE`: matches at the end of the string or just
before a single trailing newline. -/
def dollarHere : Str → Bool
  | [] => true
  | [c] => c = '\n'
  | _ => false

/-- The lookahead `(?=\n[A-Z]|$)` tested at the position whose suffix is `s`. -/
def lookaheadHere (s : Str) : Bool :=
  (match s with
   | '\n' :: c :: _ => isUpperAZ c
   | _ => false) || dollarHere s

/-- Lazy capture `(.*?)` under `re.DOTALL`: the shortest run of characters
after which the lookahead holds.  Since `$` holds at the end of the string,
this is total. -/
def captureLazy : Str → Str
  | [] => []
  | s@(c :: rest) => if lookaheadHere s then [] else c :: captureLazy rest

/-- If `lab` is a literal front of `s`, return the remainder. -/
def stripPrefixQ : Str → Str → Option Str
  | [], s => some s
  | _, [] => none
  | p :: ps, c :: cs => if p = c then stripPrefixQ ps cs else none

/-- Model of `re.search(lab + r"(.*?)(?=\n[A-Z]|$)", s, re.DOTALL)`: the match at the
leftmost occurrence of the literal `lab`, returning group 1.  Because the
lookahead always holds at the end of the string, the search succeeds exactly
when the literal occurs. -/
def searchCapture (lab : Str) : Str → Option Str
  | [] => (stripPrefixQ lab []).map captureLazy
  | s@(_ :: rest) =>
    match stripPrefixQ lab s with
    | some r => some (captureLazy r)
    | none => searchCapture lab rest

/-! ### JSON values and `json.loads` -/

/-- A decoded JSON value.  `null` doubles as Python `None` (the two are the
same object after `json.loads`).  Numbers keep their source token. -/
inductive JValue where
  | null
  | bool (value : Bool)
  | num (raw : Str)
  | str (chars : Str)
  | arr (items : List JValue)
  | obj (fields : List (Str × JValue))

/-- JSON inter-token whitespace. -/
def isJsonWs (c : Char) : Bool := c = ' ' || c = '\t' || c = '\n' || c = '\r'

def skipWs (s : Str) : Str := s.dropWhile isJsonWs

def hexVal (c : Char) : Option Nat :=
  let n := c.toNat
  if 48 ≤ n && n ≤ 57 then some (n - 48)
  else if 97 ≤ n && n ≤ 102 then some (n - 87)
  else if 65 ≤ n && n ≤ 70 then some (n - 55)
  else none

/-- Body of a JSON string after the opening quote: returns the decoded
characters and the remainder after the closing quote. -/
def parseStringAux : Nat → Str → Str → Option (Str × Str)
  | 0, _, _ => none
  | _ + 1, [], _ => none
  | fuel + 1, c :: rest, acc =>
    if c = '"' then some (acc.reverse, rest)
    else if c = '\\' then
      match rest with
      | [] => none
      | e :: r =>
        if e = '"' then parseStringAux fuel r ('"' :: acc)
        else if e = '\\' then parseStringAux fuel r ('\\' :: acc)
        else if e = '/' then parseStringAux fuel r ('/' :: acc)
        else if e = 'b' then parseStringAux fuel r (Char.ofNat 8 :: acc)
        else if e = 'f' then parseStringAux fuel r (Char.ofNat 12 :: acc)
        else if e = 'n' then parseStringAux fuel r ('\n' :: acc)
        else if e = 'r' then parseStringAux fuel r ('\r' :: acc)
        else if e = 't' then parseStringAux fuel r ('\t' :: acc)
        else if e = 'u' then
          match r with
          | h1 :: h2 :: h3 :: h4 :: r2 =>
            match hexVal h1, hexVal h2, hexVal h3, hexVal h4 with
            | some a, some b, some c2, some d =>
              parseStringAux fuel r2 (Char.ofNat (((a * 16 + b) * 16 + c2) * 16 + d) :: acc)
            | _, _, _, _ => none
          | _ => none
        else none
    else if c.toNat < 32 then none
    else parseStringAux fuel rest (c :: acc)

def isDigit (c : Char) : Bool := 48 ≤ c.toNat && c.toNat ≤ 57

def spanDigits : Str → Str × Str
  | [] => ([], [])
  | c :: rest =>
    if isDigit c then
      let (d, r) := spanDigits rest
      (c :: d, r)
    else ([], c :: rest)

/-- JSON number token (sign, integer part without leading zeros, optional
fraction, optional exponent); returns the raw token and the remainder. -/
def parseNumber (s : Str) : Option (Str × Str) :=
  let (sign, s1) : Str × Str := match s with
    | '-' :: r => (['-'], r)
    | _ => ([], s)
  match s1 with
  | [] => none
  | c :: rest =>
    let ipRes : Option (Str × Str) :=
      if c = '0' then some (['0'], rest)
      else if isDigit c then
        let (d, r) := spanDigits rest
        some (c :: d, r)
      else none
    match ipRes with
    | none => none
    | some (ip, s2) =>
      let fracRes : Option (Str × Str) :=
        match s2 with
        | '.' :: r =>
          match spanDigits r with
          | ([], _) => none
          | (ds, r2) => some ('.' :: ds, r2)
        | _ => some ([], s2)
      match fracRes with
      | none => none
      | some (fp, s3) =>
        let expRes : Option (Str × Str) :=
          match s3 with
          | e :: r =>
            if e = 'e' ∨ e = 'E' then
              let (sg, r1) : Str × Str := match r with
                | c2 :: r2 => if c2 = '+' ∨ c2 = '-' then ([c2], r2) else ([], r)
                | [] => ([], [])
              match spanDigits r1 with
              | ([], _) => none
              | (ds, r2) => some (e :: (sg ++ ds), r2)
            else some ([], s3)
          | [] => some ([], [])
        match expRes with
        | none => none
        | some (ep, s4) => some (sign ++ ip ++ fp ++ ep, s4)

/-- Try to read a literal token, yielding the given value. -/
def tryLit (lit : Str) (v : JValue) (s : Str) : Option (JValue × Str) :=
  (stripPrefixQ lit s).map fun r => (v, r)

mutual

/-- One JSON value starting at `s` (leading whitespace allowed), as
`json.loads` reads one: object, array, string, number, or one of the
literals `null`/`true`/`false`/`NaN`/`Infinity`/`-Infinity`. -/
def parseValue : Nat → Str → Option (JValue × Str)
  | 0, _ => none
  | fuel + 1, s =>
    let s := skipWs s
    match s with
    | [] => none
    | c :: rest =>
      if c = '"' then
        (parseStringAux (rest.length + 1) rest []).map fun (t, r) => (JValue.str t, r)
      else if c = '[' then
        match skipWs rest with
        | ']' :: r2 => some (.arr [], r2)
        | r1 => parseArrayItems fuel r1 []
      else if c = '{' then
        match skipWs rest with
        | '}' :: r2 => some (.obj [], r2)
        | r1 => parseObjMembers fuel r1 []
      else
        (tryLit ('n' :: 'u' :: 'l' :: 'l' :: []) .null s).orElse fun _ =>
        (tryLit ('t' :: 'r' :: 'u' :: 'e' :: []) (.bool true) s).orElse fun _ =>
        (tryLit ('f' :: 'a' :: 'l' :: 's' :: 'e' :: []) (.bool false) s).orElse fun _ =>
        (tryLit ('N' :: 'a' :: 'N' :: []) (.num ('N' :: 'a' :: 'N' :: [])) s).orElse fun _ =>
        (tryLit ('I' :: 'n' :: 'f' :: 'i' :: 'n' :: 'i' :: 't' :: 'y' :: [])
          (.num ('I' :: 'n' :: 'f' :: 'i' :: 'n' :: 'i' :: 't' :: 'y' :: [])) s).orElse fun _ =>
        (tryLit ('-' :: 'I' :: 'n' :: 'f' :: 'i' :: 'n' :: 'i' :: 't' :: 'y' :: [])
          (.num ('-' :: 'I' :: 'n' :: 'f' :: 'i' :: 'n' :: 'i' :: 't' :: 'y' :: [])) s).orElse fun _ =>
        (parseNumber s).map fun (tok, r) => (JValue.num tok, r)

/-- Items of a non-empty JSON array, after the opening bracket. -/
def parseArrayItems : Nat → Str → List JValue → Option (JValue × Str)
  | 0, _, _ => none
  | fuel + 1, s, acc =>
    match parseValue fuel s with
    | none => none
    | some (v, r) =>
      match skipWs r with
      | ',' :: r2 => parseArrayItems fuel (skipWs r2) (v :: acc)
      | ']' :: r2 => some (.arr (v :: acc).reverse, r2)
      | _ => none

/-- Members of a non-empty JSON object, after the opening brace. -/
def parseObjMembers : Nat → Str → List (Str × JValue) → Option (JValue × Str)
  | 0, _, _ => none
  | fuel + 1, s, acc =>
    match s with
    | '"' :: rest =>
      match parseStringAux (rest.length + 1) rest [] with
      | none => none
      | some (k, r) =>
        match skipWs r with
        | ':' :: r2 =>
          match parseValue fuel (skipWs r2) with
          | none => none
          | some (v, r3) =>
            match skipWs r3 with
            | ',' :: r4 => parseObjMembers fuel (skipWs r4) ((k, v) :: acc)
            | '}' :: r4 => some (.obj ((k, v) :: acc).reverse, r4)
            | _ => none
        | _ => none
    | _ => none

end

/-- Model of `json.loads(s)`: one value, then nothing but whitespace ("Extra data"
otherwise). -/
def jsonLoads (s : Str) : Option JValue :=
  match parseValue (s.length + 2) s with
  | some (v, rest) => if skipWs rest = [] then some v else none
  | none => none

/-- Python `dict` lookup built from a JSON object: later duplicate keys win
(`json.loads` keeps the last binding). -/
def jObjGet (kvs : List (Str × JValue)) (k : Str) : Option JValue :=
  kvs.reverse.lookup k

example : jsonLoads "null".data = some .null := rfl
example : jsonLoads "\x7b\"tool\": \"fly\"\x7d".data =
    some (.obj [("tool".data, .str "fly".data)]) := rfl
example : jsonLoads "not json".data = none := rfl
example : jsonLoads "[1, true]".data = some (.arr [.num "1".data, .bool true]) := rfl
example : pyStrip "  hi \n".data = "hi".data := by decide
example : searchCapture "Final Answer: ".data "Thought: x\nFinal Answer: 42".data
    = some "42".data := by decide

/-! ### Output parser (`output_parser.py`, `OutputParser.parse`) -/

/-- The structured result of `OutputParser.parse` (the dict it returns,
split by its `"type"` tag).  In an `action`, `tool` is
`action_json.get("tool")` (so `null` stands for Python `None`, covering
both a missing key and an explicit JSON `null`), and `parameters` is
`action_json.get("parameters", {})`. -/
inductive ParsedResponse where
  | thought (content : Str)
  | action (thought : Option Str) (tool : JValue) (parameters : JValue)
  | finalAnswer (content : Str)

/-- Pattern `r"Thought: (.*?)(?=\n[A-Z]|$)"`. -/
def thoughtLab : Str := "Thought: ".data
/-- Pattern `r"Action: (.*?)(?=\n[A-Z]|$)"`. -/
def actionLab : Str := "Action: ".data
/-- Pattern `r"Final Answer: (.*?)(?=\n[A-Z]|$)"`. -/
def finalAnswerLab : Str := "Final Answer: ".data

/-- Embedding of `OutputParser.parse`: strip the text; return the Final Answer if its
pattern matches; otherwise look for a Thought and an Action; an Action whose
payload fails `json.loads` yields `none` (as does a decoded non-object
payload, whose `.get` raises `AttributeError` into the surrounding
`except`); an Action-free text with a Thought yields the Thought; otherwise
`none`. -/
def parse (text : Str) : Option ParsedResponse :=
  let text := pyStrip text
  match searchCapture finalAnswerLab text with
  | some g => some (.finalAnswer (pyStrip g))
  | none =>
    let thought := (searchCapture thoughtLab text).map pyStrip
    match searchCapture actionLab text with
    | some g =>
      match jsonLoads (pyStrip g) with
      | some (.obj kvs) =>
        some (.action thought ((jObjGet kvs "tool".data).getD .null)
          ((jObjGet kvs "parameters".data).getD (.obj [])))
      | some _ => none
      | none => none
    | none =>
      match thought with
      | some t => some (.thought t)
      | none => none

example : parse "Final Answer: 4".data = some (.finalAnswer "4".data) := rfl
example : parse "Thought: hm\nAction: \x7b\"tool\": \"x\"\x7d".data =
    some (.action (some "hm".data) (.str "x".data) (.obj [])) := rfl
example : parse "Thought: hm\nAction: oops".data = none := rfl
example : parse "Thought: hm".data = some (.thought "hm".data) := rfl
example : parse "gibberish".data = none := rfl

/-! ### Tool registry and dispatcher (`tool_manager.py`) -/

/-- A registered tool: `{"func": handler, "description": text}`.  The
handler abstracts an arbitrary Python callable invoked with the decoded
parameters expanded as keyword arguments; `.error` is an exception escaping
it, `.ok` the `str()` of its result. -/
structure Tool where
  func : List (Str × JValue) → Except Str Str
  description : Str

/-- The `ToolManager.tools` registry: insertion-ordered mapping from name to tool. -/
abbrev Registry := List (Str × Tool)

/-- Embedding of `ToolManager.get_tools_description`: newline-joined
`name: description` lines, in registration order. -/
def getToolsDescription (reg : Registry) : Str :=
  ("\n".data).intercalate (reg.map fun p => p.1 ++ ": ".data ++ p.2.description)

/-- Python `f"{v}"` for the scalar JSON values a decoded `"tool"` field can
hold while remaining hashable (`str(None) = "None"` etc.). -/
def pyFormatJV : JValue → Str
  | .null => "None".data
  | .bool true => "True".data
  | .bool false => "False".data
  | .num raw => raw
  | .str s => s
  | .arr _ => "[...]".data
  | .obj _ => "\x7b...\x7d".data

/-- A decoded `"tool"` value usable as a `dict` membership probe: Python
lists and dicts are unhashable and make `tool_name not in self.tools`
raise `TypeError` instead. -/
def hashableName : JValue → Bool
  | .arr _ => false
  | .obj _ => false
  | _ => true

/-- Registry lookup with the decoded tool value: only a JSON string can
name a registered tool (registry keys are Python strings). -/
def lookupTool (reg : Registry) (name : JValue) : Option Tool :=
  match name with
  | .str s => reg.lookup s
  | _ => none

/-- Embedding of `ToolManager.execute_tool`: an unhashable name makes the membership
test itself raise; an absent name raises `ValueError(f"Unknown tool: ...")`
before any handler is touched; otherwise the handler is invoked with the
parameters as keyword arguments (which requires them to be a mapping), and
its exceptions propagate. -/
def executeTool (reg : Registry) (name : JValue) (params : JValue) : Except Str Str :=
  if hashableName name = false then
    .error "unhashable type".data
  else
    match lookupTool reg name with
    | none => .error ("Unknown tool: ".data ++ pyFormatJV name)
    | some t =>
      match params with
      | .obj kvs => t.func kvs
      | _ => .error "argument of type not a mapping".data

/-! ### Completion provider adapter (`model_hub.py`, `ModelHub`) -/

/-- An exception raised by the underlying OpenAI call. -/
structure PErr where
  msg : Str
deriving DecidableEq

/-- The external LLM service: the outcome of the `k`-th completion request
of a run, for a given prompt, on the primary (`complex`) and fallback
models. -/
structure Oracle where
  primary : Nat → Str → Except PErr Str
  fallback : Nat → Str → Except PErr Str

/-- Configuration of `ModelHub`: whether `settings.FALLBACK_MODEL` is set
(truthy). -/
structure HubCfg where
  hasFallback : Bool
deriving DecidableEq

/-- Embedding of `ModelHub.complex_llm_call`: try the primary model; on an exception,
if a fallback model is configured and the `use_fallback` guard is clear,
try the fallback once; if that also fails (or no fallback is available)
re-raise the primary error.  Returns the result together with the updated
`use_fallback` flag. -/
def complexLlmCall (cfg : HubCfg) (o : Oracle) (k : Nat) (prompt : Str)
    (useFallback : Bool) : Except PErr Str × Bool :=
  match o.primary k prompt with
  | .ok r => (.ok r, useFallback)
  | .error e =>
    if cfg.hasFallback && !useFallback then
      match o.fallback k prompt with
      | .ok r => (.ok r, false)
      | .error _ => (.error e, false)
    else (.error e, useFallback)

/-! ### Prompt template (`prompt_template.py`) -/

/-- An apostrophe, kept out of string literals. -/
def apos : Str := [Char.ofNat 39]

/-- Embedding of `PromptTemplate.get_complex_prompt`, with the wall-clock time string a
parameter. -/
def getComplexPrompt (now userInput toolsDescription chatHistory : Str) : Str :=
  "Category Content\nbackground\nCurrent Time: ".data ++ now ++
  "\nCurrent Location: Vancouver, Canada\n\nrole\nYou are a helpful AI assistant. Assistant is designed to be able to assist with a wide range of tasks, from answering simple questions to providing in-depth explanations and discussions on a wide range of topics. As a language model, Assistant is able to generate human-like text based on the input it receives, allowing it to engage in natural-sounding conversations and provide responses that are coherent and relevant to the topic at hand.\n\ntool description\nYou have access to the following tools:\n".data ++
  toolsDescription ++
  "\n\nformat constraints\nYou MUST use the following format to respond:\nThought: Describe the problem you need to solve next, and think about whether you need to use tools.\nIf you think you can respond directly to the user without using a tool, please reply:\nFinal Answer: string \\ Put your final response here.\nIf you think you need to use a tool, please reply:\nAction: A JSON object that contains the tool".data ++
  apos ++ "s name and the tool".data ++ apos ++
  "s inputs.\nObservation: the result of action\nThought: a new round of thinking\n...\nThought/Action/Observation can repeat several times until you think you no longer need any tool. At this point, please reply:\nThought: I now know the final answer.\nFinal Answer: string \\ Put your final response here.\nIf you do not reply in this format, you may cause a programming error.\n\nchat history\nThe chat history between the user and the AI:\n".data ++
  (if chatHistory = [] then "No previous conversation".data else chatHistory) ++
  "\n\nnew input\nThe user".data ++ apos ++ "s new input:\nHuman: ".data ++
  userInput ++ "\n".data

/-! ### Reasoning loop (`react_agent.py`, `ReActAgent.solve`) -/

/-- One entry of `conversation_history`. -/
structure Msg where
  role : Str
  content : Str
deriving DecidableEq

/-- The `ReActAgent.max_iterations` budget. -/
def maxIterations : Nat := 5

/-- Python `"\n".join(f"{msg['role']}: {msg['content']}" ...)`. -/
def chatHistoryStr (hist : List Msg) : Str :=
  ("\n".data).intercalate (hist.map fun m => m.role ++ ": ".data ++ m.content)

/-- Outcome of one pass of the `while` body given the model response:
a parse failure breaks out of the loop; a Thought or an Action (with its
Observation, successful or not) extends the history and continues; a Final
Answer ends the loop with its content. -/
inductive StepOut where
  | parseFail
  | next (hist : List Msg)
  | answered (ans : Str) (hist : List Msg)

/-- Lines 47–82 of `react_agent.py`: parse the response and process it. -/
def solveStep (reg : Registry) (response : Str) (hist : List Msg) : StepOut :=
  match parse response with
  | none => .parseFail
  | some (.thought c) =>
    .next (hist ++ [⟨"assistant".data, "Thought: ".data ++ c⟩])
  | some (.action _ tool params) =>
    match executeTool reg tool params with
    | .ok res =>
      .next (hist ++ [⟨"system".data, "Observation: ".data ++ res⟩])
    | .error e =>
      .next (hist ++ [⟨"system".data,
        "Observation: ".data ++ "Error executing tool: ".data ++ e⟩])
  | some (.finalAnswer c) =>
    .answered c (hist ++ [⟨"assistant".data, "Final Answer: ".data ++ c⟩])

/-- The dict returned by `ReActAgent.solve`. -/
structure SolveOut where
  final_answer : Str
  conversation_history : List Msg
  iterations : Nat
deriving DecidableEq

/-- The `while iteration < self.max_iterations and not final_answer` loop,
with `fuel = max_iterations - iteration` and `calls` counting completion
requests already issued (it indexes the oracle).  A provider exception
escaping `complex_llm_call` is not caught anywhere in `solve` and so
propagates (`Except.error`). -/
def solveGo (cfg : HubCfg) (o : Oracle) (reg : Registry) (userInput now : Str) :
    Nat → Nat → Nat → Bool → List Msg → Except PErr (Nat × List Msg × Option Str)
  | 0, iteration, _calls, _useFb, hist => .ok (iteration, hist, none)
  | fuel + 1, iteration, calls, useFb, hist =>
    match complexLlmCall cfg o calls
      (getComplexPrompt now userInput (getToolsDescription reg) (chatHistoryStr hist))
      useFb with
    | (.error e, _) => .error e
    | (.ok response, useFb2) =>
      match solveStep reg response hist with
      | .parseFail => .ok (iteration, hist, none)
      | .next hist2 =>
        solveGo cfg o reg userInput now fuel (iteration + 1) (calls + 1) useFb2 hist2
      | .answered ans hist2 => .ok (iteration + 1, hist2, some ans)

/-- The fixed apology used when the loop ends without a final answer. -/
def apologyAnswer : Str :=
  "I apologize, but I was unable to complete the task within the allowed iterations.".data

/-- Embedding of `ReActAgent.solve`:  iteration 0, empty history, `use_fallback` clear;
on normal loop exit, package `{final_answer, conversation_history,
iterations}`, substituting the apology when no final answer was produced.
A provider exception is returned as `Except.error`. -/
def solve (cfg : HubCfg) (o : Oracle) (reg : Registry) (userInput now : Str) :
    Except PErr SolveOut :=
  match solveGo cfg o reg userInput now maxIterations 0 0 false [] with
  | .error e => .error e
  | .ok (it, hist, fa) =>
    .ok { final_answer := fa.getD apologyAnswer
          conversation_history := hist
          iterations := it }

/-- Iteration count of a completed run (0 for a propagated exception). -/
def iterationsOf : Except PErr SolveOut → Nat
  | .ok out => out.iterations
  | .error _ => 0

/-! ### Tiered memory manager (`memory_manager.py`, `MemoryManager`) -/

/-- The structured content of a `datetime.now().isoformat()` timestamp (the
parts the manager renders with `strftime`). -/
structure Timestamp where
  year : Nat
  month : Nat
  day : Nat
  hour : Nat
  minute : Nat
  second : Nat
deriving DecidableEq

/-- Decimal digits of `n`, left-padded with zeros to width `w`. -/
def padNum (w : Nat) (n : Nat) : Str :=
  let d := Nat.toDigits 10 n
  List.replicate (w - d.length) '0' ++ d

/-- Formatting `strftime('%Y-%m-%d')`. -/
def dayKey (t : Timestamp) : Str :=
  padNum 4 t.year ++ "-".data ++ padNum 2 t.month ++ "-".data ++ padNum 2 t.day

/-- Formatting `strftime('%Y-%m-%d %H:%M:%S')`. -/
def renderTs (t : Timestamp) : Str :=
  dayKey t ++ " ".data ++ padNum 2 t.hour ++ ":".data ++ padNum 2 t.minute ++
    ":".data ++ padNum 2 t.second

/-- One conversation record: `{"timestamp": ..., "user": ..., "assistant": ...}`. -/
structure Entry where
  timestamp : Timestamp
  user : Str
  assistant : Str
deriving DecidableEq

/-- The `self.memory_threshold` constant. -/
def memoryThreshold : Nat := 10

/-- The archive file path `os.path.join(self.memory_dir, f"{self.user_id}_{date_key}.json")`. -/
def memFilePath (userId dateKey : Str) : Str :=
  "memory_storage/".data ++ userId ++ "_".data ++ dateKey ++ ".json".data

/-- A `MemoryManager` instance together with the files it owns:
`archive path = none` models a file that does not exist. -/
structure MemoryState where
  user_id : Str
  short_term_memory : List Entry
  archive : Str → Option (List Entry)

/-- A freshly constructed `MemoryManager(user_id)` over an empty storage
directory. -/
def initMemory (userId : Str) : MemoryState :=
  { user_id := userId, short_term_memory := [], archive := fun _ => none }

/-- Embedding of `MemoryManager._move_to_long_term_memory`: pop the oldest short-term
entry, key the archive file by that entry's own timestamp's calendar day,
read the file if it exists (else start from `[]`), append the entry, and
rewrite the whole file. -/
def moveToLongTermMemory (s : MemoryState) : MemoryState :=
  match s.short_term_memory with
  | [] => s
  | oldest :: rest =>
    let dateKey := dayKey oldest.timestamp
    let path := memFilePath s.user_id dateKey
    let memories := (s.archive path).getD []
    { s with
      short_term_memory := rest
      archive := fun k => if k = path then some (memories ++ [oldest]) else s.archive k }

/-- Embedding of `MemoryManager.add_conversation`, with the `datetime.now()` timestamp a
parameter: append the new entry, then, if the short-term length exceeds the
threshold, evict once. -/
def addConversation (s : MemoryState) (now : Timestamp)
    (userMessage aiResponse : Str) : MemoryState :=
  let conversation : Entry := ⟨now, userMessage, aiResponse⟩
  let s := { s with short_term_memory := s.short_term_memory ++ [conversation] }
  if s.short_term_memory.length > memoryThreshold then moveToLongTermMemory s else s

/-- A sequence of `add_conversation` calls, one per listed entry. -/
def addAll (s : MemoryState) (l : List Entry) : MemoryState :=
  l.foldl (fun s e => addConversation s e.timestamp e.user e.assistant) s

/-! ### `MemoryManager.recall_memory` -/

/-- What reading and JSON-decoding an archive file can produce when it
exists: entries, or an exception.  `json.JSONDecodeError` is a `ValueError`,
so decode failures take the invalid-input branch; OS-level read errors take
the catch-all branch. -/
inductive ReadErr where
  | valueErr (msg : Str)
  | otherErr (msg : Str)

/-- The on-disk archive as `recall_memory` sees it: `none` when
`os.path.exists` is false. -/
abbrev RawStore := Str → Option (Except ReadErr (List Entry))

/-- Python `f"{n:0wd}"` for an `int` (sign first, then zero padding). -/
def pyFmtZero (w : Nat) (n : Int) : Str :=
  if n < 0 then '-' :: padNum (w - 1) n.natAbs else padNum w n.toNat

/-- Formatting `f"{year:04d}-{month:02d}-{day:02d}"`. -/
def recallDateStr (year month day : Int) : Str :=
  pyFmtZero 4 year ++ "-".data ++ pyFmtZero 2 month ++ "-".data ++ pyFmtZero 2 day

/-- The `[ts]` / `Human:` / `Assistant:` rendering of the stored entries. -/
def renderMemories (ms : List Entry) : Str :=
  ("\n".data).intercalate (ms.flatMap fun mem =>
    ["[".data ++ renderTs mem.timestamp ++ "]".data,
     "Human: ".data ++ mem.user,
     "Assistant: ".data ++ mem.assistant])

/-- Embedding of `MemoryManager.recall_memory`: format the date, look for the file, and
always return a string — entries rendered chronologically, or a
"no memories"/"no memory file" message, or a caught-exception message. -/
def recallMemory (store : RawStore) (userId : Str) (year month day : Int) : Str :=
  let dateStr := recallDateStr year month day
  let path := memFilePath userId dateStr
  match store path with
  | none => "No memory file found for the date: ".data ++ dateStr
  | some (.error (.valueErr msg)) =>
    "Error: Invalid date provided. Please provide valid year, month, and day as integers. Details: ".data ++ msg
  | some (.error (.otherErr msg)) =>
    "An unexpected error occurred while recalling memory: ".data ++ msg
  | some (.ok memories) =>
    if memories = [] then "No memories found for ".data ++ dateStr
    else renderMemories memories

/-! ## Claim theorems -/

/-- Claim C2. For every completion text containing both a `Final Answer:`
block and an `Action:` block (both patterns match on the stripped text),
`parse` returns the `finalAnswer` variant with the captured content — the
Final Answer pattern is tried first and wins. -/
theorem C2_final_answer_priority (text g g' : Str)
    (hf : searchCapture finalAnswerLab (pyStrip text) = some g)
    (_ha : searchCapture actionLab (pyStrip text) = some g') :
    parse text = some (.finalAnswer (pyStrip g)) := by
  simp only [parse, hf]

theorem C2_witness :
    parse "Final Answer: done\nAction: \x7b\"tool\": \"x\"\x7d".data =
      some (.finalAnswer "done".data) := by
  exact C2_final_answer_priority "Final Answer: done\nAction: \x7b\"tool\": \"x\"\x7d".data
    "done".data "\x7b\"tool\": \"x\"\x7d".data rfl rfl

/-- Claim C3. A completion with no `Final Answer:` block whose `Action:`
payload does not decode as JSON makes `parse` return no result (`none`),
whatever else — in particular a `Thought:` line — the text contains. -/
theorem C3_undecodable_action_fatal (text g : Str)
    (hnf : searchCapture finalAnswerLab (pyStrip text) = none)
    (ha : searchCapture actionLab (pyStrip text) = some g)
    (hj : jsonLoads (pyStrip g) = none) :
    parse text = none := by
  simp only [parse, hnf, ha, hj]

theorem C3_witness :
    parse "Thought: need a tool\nAction: not json at all".data = none := by
  exact C3_undecodable_action_fatal _ _ rfl rfl rfl

/-- Claim C9. The function `parse` is a total pure function over the text: every input
yields exactly one of the three structured variants or no result, and
(being a Lean function) it has no side effects and raises nothing. -/
theorem C9_parse_total (text : Str) :
    (∃ c, parse text = some (.finalAnswer c)) ∨
    (∃ th n p, parse text = some (.action th n p)) ∨
    (∃ c, parse text = some (.thought c)) ∨
    parse text = none := by
  cases parse text with
  | none => exact .inr (.inr (.inr rfl))
  | some r =>
    cases r with
    | thought c => exact .inr (.inr (.inl ⟨c, rfl⟩))
    | action th n p => exact .inr (.inl ⟨th, n, p, rfl⟩)
    | finalAnswer c => exact .inl ⟨c, rfl⟩

/-- Claim C10. An `Action:` payload that decodes to a JSON object without a
`"tool"` key is not a parse failure: `parse` returns an `action` whose tool
is `None` (and whose parameters default to the empty map), and the missing
name surfaces only at dispatch, where `execute_tool` raises
`Unknown tool: None` for every registry and parameter set. -/
theorem C10_missing_tool_key (text g : Str) (kvs : List (Str × JValue))
    (hnf : searchCapture finalAnswerLab (pyStrip text) = none)
    (ha : searchCapture actionLab (pyStrip text) = some g)
    (hj : jsonLoads (pyStrip g) = some (.obj kvs))
    (hk : jObjGet kvs "tool".data = none) :
    parse text = some (.action ((searchCapture thoughtLab (pyStrip text)).map pyStrip)
      .null ((jObjGet kvs "parameters".data).getD (.obj []))) ∧
    ∀ (reg : Registry) (params : JValue),
      executeTool reg .null params = .error "Unknown tool: None".data := by
  constructor
  · simp only [parse, hnf, ha, hj, hk, Option.getD]
  · intro reg params
    rfl

theorem C10_witness :
    parse "Action: \x7b\"parameters\": \x7b\x7d\x7d".data =
      some (.action none .null (.obj [])) ∧
    executeTool [] .null (.obj []) = .error "Unknown tool: None".data := by
  have h := C10_missing_tool_key "Action: \x7b\"parameters\": \x7b\x7d\x7d".data
    "\x7b\"parameters\": \x7b\x7d\x7d".data [("parameters".data, .obj [])]
    rfl rfl rfl rfl
  exact ⟨h.1, h.2 [] (.obj [])⟩

/-- Claim C6. A hashable tool name absent from the registry makes
`execute_tool` fail with `ValueError("Unknown tool: ...")` — the equation
holds for every registry with that name absent and every parameter set, so
no registered handler is consulted — and, when such an action is the parsed
response, the loop body catches the error, appends an Observation message
describing it, and continues (`next`) rather than aborting. -/
theorem C6_unknown_tool_continues (reg : Registry) (name params : JValue)
    (th : Option Str) (resp : Str) (hist : List Msg)
    (hh : hashableName name = true)
    (hl : lookupTool reg name = none)
    (hp : parse resp = some (.action th name params)) :
    executeTool reg name params = .error ("Unknown tool: ".data ++ pyFormatJV name) ∧
    solveStep reg resp hist = .next (hist ++ [⟨"system".data,
      "Observation: ".data ++ "Error executing tool: ".data ++
        ("Unknown tool: ".data ++ pyFormatJV name)⟩]) := by
  have hexec : executeTool reg name params =
      .error ("Unknown tool: ".data ++ pyFormatJV name) := by
    simp only [executeTool, hh, hl, if_neg (by simp : ¬(true = false))]
  exact ⟨hexec, by simp only [solveStep, hp, hexec]⟩

theorem C6_witness :
    executeTool [("echo".data, ⟨fun _ => .ok "ok".data, "Echo back".data⟩)]
      (.str "fly_drone".data) (.obj []) = .error "Unknown tool: fly_drone".data ∧
    solveStep [("echo".data, ⟨fun _ => .ok "ok".data, "Echo back".data⟩)]
      "Action: \x7b\"tool\": \"fly_drone\"\x7d".data [] =
      .next [⟨"system".data, "Observation: Error executing tool: Unknown tool: fly_drone".data⟩] := by
  exact C6_unknown_tool_continues _ (.str "fly_drone".data) (.obj []) none
    "Action: \x7b\"tool\": \"fly_drone\"\x7d".data [] rfl rfl rfl

/-- Two oracles that agree on a request give `complex_llm_call` the same
outcome. -/
lemma complexLlmCall_congr (cfg : HubCfg) (o o' : Oracle) (k : Nat) (p : Str)
    (fb : Bool) (h1 : o.primary k p = o'.primary k p)
    (h2 : o.fallback k p = o'.fallback k p) :
    complexLlmCall cfg o k p fb = complexLlmCall cfg o' k p fb := by
  unfold complexLlmCall
  rw [h1, h2]

/-- The loop consults the oracle only at indices below `calls + fuel`. -/
lemma solveGo_congr (cfg : HubCfg) (reg : Registry) (inp now : Str)
    (o o' : Oracle) (bound : Nat)
    (hagree : ∀ k p, k < bound →
      o.primary k p = o'.primary k p ∧ o.fallback k p = o'.fallback k p) :
    ∀ fuel iteration calls fb hist, calls + fuel ≤ bound →
      solveGo cfg o reg inp now fuel iteration calls fb hist =
        solveGo cfg o' reg inp now fuel iteration calls fb hist := by
  intro fuel
  induction fuel with
  | zero => intro iteration calls fb hist _; rfl
  | succ n ih =>
    intro iteration calls fb hist hle
    have hk : calls < bound := by omega
    unfold solveGo
    rw [complexLlmCall_congr cfg o o' calls
      (getComplexPrompt now inp (getToolsDescription reg) (chatHistoryStr hist)) fb
      (hagree calls _ hk).1 (hagree calls _ hk).2]
    split
    · rfl
    · split
      · rfl
      · exact ih _ _ _ _ (by omega)
      · rfl

/-- A normally completed loop ran at most `fuel` more iterations. -/
lemma solveGo_iterations_le (cfg : HubCfg) (o : Oracle) (reg : Registry)
    (inp now : Str) :
    ∀ fuel iteration calls fb hist it2 hist2 fa,
      solveGo cfg o reg inp now fuel iteration calls fb hist = .ok (it2, hist2, fa) →
      it2 ≤ iteration + fuel := by
  intro fuel
  induction fuel with
  | zero =>
    intro iteration calls fb hist it2 hist2 fa h
    injection h with h
    injection h with h1 _
    omega
  | succ n ih =>
    intro iteration calls fb hist it2 hist2 fa h
    unfold solveGo at h
    split at h
    · exact absurd h (by simp)
    · split at h
      · simp only [Except.ok.injEq, Prod.mk.injEq] at h
        obtain ⟨h1, -, -⟩ := h
        omega
      · have := ih _ _ _ _ _ _ _ h
        omega
      · simp only [Except.ok.injEq, Prod.mk.injEq] at h
        obtain ⟨h1, -, -⟩ := h
        omega

/-- Claim C5. A single `solve` invocation issues at most
`max_iterations = 5` completion calls: its outcome is unchanged by
arbitrary changes to the provider beyond the first five requests, and a
completed run reports `iterations ≤ 5`.  (The loop exits on a parsed
Final Answer, on a parse failure, or when the iteration count reaches
`max_iterations`.) -/
theorem C5_iteration_budget (cfg : HubCfg) (reg : Registry) (inp now : Str)
    (o o' : Oracle)
    (h : ∀ k p, k < maxIterations →
      o.primary k p = o'.primary k p ∧ o.fallback k p = o'.fallback k p) :
    solve cfg o reg inp now = solve cfg o' reg inp now ∧
    iterationsOf (solve cfg o reg inp now) ≤ maxIterations := by
  constructor
  · unfold solve
    rw [solveGo_congr cfg reg inp now o o' maxIterations h maxIterations 0 0 false []
      (by omega)]
  · unfold solve
    cases hres : solveGo cfg o reg inp now maxIterations 0 0 false [] with
    | error e => simp [iterationsOf]
    | ok v =>
      rcases v with ⟨it, hist, fa⟩
      have := solveGo_iterations_le cfg o reg inp now maxIterations 0 0 false [] it hist fa hres
      simpa [iterationsOf] using this

/-- An oracle answering a fixed Thought below the budget and a different
text beyond it. -/
def budgetOracle (beyond : Str) : Oracle where
  primary := fun k _ =>
    if k < maxIterations then .ok "Thought: still thinking".data else .ok beyond
  fallback := fun _ _ => .error ⟨"no fallback".data⟩

theorem C5_witness :
    solve ⟨true⟩ (budgetOracle "alpha".data) [] "hi".data "now".data =
      solve ⟨true⟩ (budgetOracle "beta".data) [] "hi".data "now".data ∧
    iterationsOf (solve ⟨true⟩ (budgetOracle "alpha".data) [] "hi".data "now".data) ≤
      maxIterations := by
  exact C5_iteration_budget ⟨true⟩ [] "hi".data "now".data
    (budgetOracle "alpha".data) (budgetOracle "beta".data)
    (fun k p hk => ⟨by simp only [budgetOracle, if_pos hk], rfl⟩)

/-- A provider whose primary and fallback models both fail on every
request. -/
def failingOracle : Oracle where
  primary := fun _ _ => .error ⟨"primary model down".data⟩
  fallback := fun _ _ => .error ⟨"fallback model down".data⟩

/-- Claim C1, counterexample.  When the primary call and its single fallback
attempt both fail, `complex_llm_call` re-raises the primary exception;
`solve` calls it outside any `try` block, so the exception propagates to
`solve`'s caller instead of being treated like a parse failure: `solve`
does not return a result object here. -/
theorem C1_counterexample :
    solve ⟨true⟩ failingOracle [] "hi".data "now".data =
      .error ⟨"primary model down".data⟩ := rfl

/-- Starting with the `use_fallback` guard clear, `complex_llm_call`
leaves it clear. -/
lemma complexLlmCall_flag (cfg : HubCfg) (o : Oracle) (k : Nat) (p : Str) :
    (complexLlmCall cfg o k p false).2 = false := by
  unfold complexLlmCall
  cases o.primary k p with
  | ok r => rfl
  | error e =>
    simp only
    split
    · cases o.fallback k p with
      | ok r => rfl
      | error e2 => rfl
    · rfl

/-- If every completion request succeeds (primary, or fallback after a
primary failure), every run of the loop completes normally. -/
lemma solveGo_ok_of_calls_ok (cfg : HubCfg) (o : Oracle) (reg : Registry)
    (inp now : Str)
    (h : ∀ k p, ((complexLlmCall cfg o k p false).1).isOk = true) :
    ∀ fuel iteration calls hist,
      ∃ v, solveGo cfg o reg inp now fuel iteration calls false hist = .ok v := by
  intro fuel
  induction fuel with
  | zero => exact fun iteration calls hist => ⟨_, rfl⟩
  | succ n ih =>
    intro iteration calls hist
    have hok := h calls
      (getComplexPrompt now inp (getToolsDescription reg) (chatHistoryStr hist))
    have hfl := complexLlmCall_flag cfg o calls
      (getComplexPrompt now inp (getToolsDescription reg) (chatHistoryStr hist))
    unfold solveGo
    split
    · next e fb2 heq =>
      rw [heq] at hok
      exact Bool.noConfusion hok
    · next response fb2 heq =>
      have hfb2 : fb2 = false := by rw [heq] at hfl; exact hfl
      subst hfb2
      cases solveStep reg response hist with
      | parseFail => exact ⟨_, rfl⟩
      | next hist2 => exact ih (iteration + 1) (calls + 1) hist2
      | answered ans hist2 => exact ⟨_, rfl⟩

/-- Claim C1, amended.  Provided no provider error escapes
`complex_llm_call` (the primary call, or its single fallback attempt,
succeeds on every request), `solve` raises nothing and returns a result
object `{final_answer, conversation_history, iterations}`.  (When both
fail, the error propagates out of `solve` — see the counterexample.) -/
theorem C1_amended_no_raise (cfg : HubCfg) (o : Oracle) (reg : Registry)
    (inp now : Str)
    (h : ∀ k p, ((complexLlmCall cfg o k p false).1).isOk = true) :
    ∃ out, solve cfg o reg inp now = .ok out := by
  obtain ⟨⟨it, hist, fa⟩, hv⟩ := solveGo_ok_of_calls_ok cfg o reg inp now h maxIterations 0 0 []
  exact ⟨{ final_answer := fa.getD apologyAnswer
           conversation_history := hist
           iterations := it },
    by unfold solve; rw [hv]⟩

/-- A provider that always answers with a final answer. -/
def healthyOracle : Oracle where
  primary := fun _ _ => .ok "Final Answer: all good".data
  fallback := fun _ _ => .error ⟨"unused".data⟩

theorem C1_witness :
    ∃ out, solve ⟨true⟩ healthyOracle [] "hi".data "now".data = .ok out := by
  exact C1_amended_no_raise ⟨true⟩ healthyOracle [] "hi".data "now".data
    (fun k p => rfl)

/-- The entries evicted so far by `addAll` from scratch that land in the
archive file `k`: the oldest `length − threshold` entries, in FIFO order,
restricted to those whose own timestamp's day keys file `k`. -/
def evictedAt (u : Str) (l : List Entry) (k : Str) : List Entry :=
  (l.take (l.length - memoryThreshold)).filter
    (fun e => decide (memFilePath u (dayKey e.timestamp) = k))

lemma addAll_append_singleton (s : MemoryState) (l : List Entry) (e : Entry) :
    addAll s (l ++ [e]) =
      addConversation (addAll s l) e.timestamp e.user e.assistant := by
  simp [addAll, List.foldl_append]

/-- An eviction from a state whose short-term log starts with `oldest`:
pop it and append it to the archive file for its own timestamp's day. -/
lemma moveToLongTermMemory_spec (s : MemoryState) (oldest : Entry)
    (rest : List Entry) (h : s.short_term_memory = oldest :: rest) :
    moveToLongTermMemory s = { s with
      short_term_memory := rest
      archive := fun k =>
        if k = memFilePath s.user_id (dayKey oldest.timestamp)
        then some ((s.archive (memFilePath s.user_id (dayKey oldest.timestamp))).getD []
          ++ [oldest])
        else s.archive k } := by
  unfold moveToLongTermMemory
  rw [h]

/-- Running invariant of the memory manager: after any sequence of adds
from a fresh state, the short-term log holds exactly the newest
`min N threshold` entries, and each archive file holds exactly the evicted
entries keyed to it, in eviction (FIFO) order. -/
lemma addAll_spec (u : Str) (l : List Entry) :
    (addAll (initMemory u) l).user_id = u ∧
    (addAll (initMemory u) l).short_term_memory =
      l.drop (l.length - memoryThreshold) ∧
    ∀ k, (addAll (initMemory u) l).archive k =
      (if evictedAt u l k = [] then none else some (evictedAt u l k)) := by
  induction l using List.reverseRecOn with
  | nil =>
    exact ⟨rfl, rfl, fun k => by simp [addAll, initMemory, evictedAt]⟩
  | append_singleton l e ih =>
    obtain ⟨hu, hst, harch⟩ := ih
    rw [addAll_append_singleton]
    have heta : (⟨e.timestamp, e.user, e.assistant⟩ : Entry) = e := rfl
    by_cases hN : memoryThreshold ≤ l.length
    · -- the add crosses the threshold: one eviction
      have hlt : l.length - memoryThreshold < l.length := by
        simp only [memoryThreshold] at hN ⊢; omega
      have hlen1 : (l ++ [e]).length - memoryThreshold =
          (l.length - memoryThreshold) + 1 := by
        rw [List.length_append, List.length_singleton]
        simp only [memoryThreshold] at hN ⊢; omega
      have hcons : ({ addAll (initMemory u) l with
          short_term_memory := (addAll (initMemory u) l).short_term_memory ++ [e] }
            : MemoryState).short_term_memory =
          l[l.length - memoryThreshold] ::
            (l.drop (l.length - memoryThreshold + 1) ++ [e]) := by
        dsimp only
        rw [hst, List.drop_eq_getElem_cons hlt]; rfl
      have hcond : ({ addAll (initMemory u) l with
          short_term_memory := (addAll (initMemory u) l).short_term_memory ++ [e] }
            : MemoryState).short_term_memory.length > memoryThreshold := by
        dsimp only
        rw [List.length_append, hst, List.length_drop, List.length_singleton]
        simp only [memoryThreshold] at hN ⊢; omega
      have hadd : addConversation (addAll (initMemory u) l) e.timestamp e.user e.assistant
          = moveToLongTermMemory { addAll (initMemory u) l with
              short_term_memory := (addAll (initMemory u) l).short_term_memory ++ [e] } := by
        simp only [addConversation, heta]
        rw [if_pos hcond]
      have hmv := moveToLongTermMemory_spec
        { addAll (initMemory u) l with
            short_term_memory := (addAll (initMemory u) l).short_term_memory ++ [e] }
        (l[l.length - memoryThreshold])
        (l.drop (l.length - memoryThreshold + 1) ++ [e]) hcons
      rw [hadd, hmv]
      dsimp only
      rw [hu]
      refine ⟨rfl, ?_, ?_⟩
      · -- short-term component
        rw [hlen1, List.drop_append_of_le_length (by omega)]
      · -- archive component
        intro k
        have htake : (l ++ [e]).take ((l ++ [e]).length - memoryThreshold) =
            l.take (l.length - memoryThreshold) ++ [l[l.length - memoryThreshold]] := by
          rw [hlen1, List.take_append_of_le_length (by omega), List.take_succ,
            List.getElem?_eq_getElem hlt]
          rfl
        have hEA' : evictedAt u (l ++ [e]) k =
            evictedAt u l k ++
              (if decide (memFilePath u
                  (dayKey (l[l.length - memoryThreshold]).timestamp) = k) = true
               then [l[l.length - memoryThreshold]] else []) := by
          simp only [evictedAt, htake, List.filter_append]
          rcases h : decide (memFilePath u
            (dayKey (l[l.length - memoryThreshold]).timestamp) = k) with _ | _ <;>
            simp [List.filter, h]
        by_cases hk : k = memFilePath u (dayKey (l[l.length - memoryThreshold]).timestamp)
        · have hdec : decide (memFilePath u
              (dayKey (l[l.length - memoryThreshold]).timestamp) = k) = true := by
            subst hk; simp
          have hoEA : evictedAt u (l ++ [e]) k =
              evictedAt u l k ++ [l[l.length - memoryThreshold]] := by
            rw [hEA', if_pos hdec]
          have hgetD : ((addAll (initMemory u) l).archive
              (memFilePath u (dayKey (l[l.length - memoryThreshold]).timestamp))).getD [] =
              evictedAt u l k := by
            rw [← hk, harch k]
            by_cases hEA : evictedAt u l k = []
            · rw [if_pos hEA, hEA]; rfl
            · rw [if_neg hEA]; rfl
          rw [if_pos hk, hoEA, hgetD, if_neg (by simp)]
        · have hdec : ¬ (decide (memFilePath u
              (dayKey (l[l.length - memoryThreshold]).timestamp) = k) = true) := by
            simp only [decide_eq_true_eq]
            exact fun hc => hk hc.symm
          have hoEA : evictedAt u (l ++ [e]) k = evictedAt u l k := by
            rw [hEA', if_neg hdec, List.append_nil]
          rw [if_neg hk, hoEA]
          exact harch k
    · -- below the threshold: plain append, no eviction
      have hlen : l.length < memoryThreshold := by omega
      have hst0 : l.length - memoryThreshold = 0 := by omega
      have hlen0 : (l ++ [e]).length - memoryThreshold = 0 := by
        rw [List.length_append, List.length_singleton]
        simp only [memoryThreshold] at hlen ⊢; omega
      have hcond : ¬ (({ addAll (initMemory u) l with
          short_term_memory := (addAll (initMemory u) l).short_term_memory ++ [e] }
            : MemoryState).short_term_memory.length > memoryThreshold) := by
        dsimp only
        rw [List.length_append, hst, List.length_drop, List.length_singleton]
        simp only [memoryThreshold] at hlen ⊢; omega
      have hadd : addConversation (addAll (initMemory u) l) e.timestamp e.user e.assistant
          = { addAll (initMemory u) l with
              short_term_memory := (addAll (initMemory u) l).short_term_memory ++ [e] } := by
        simp only [addConversation, heta]
        rw [if_neg hcond]
      rw [hadd]
      refine ⟨hu, ?_, ?_⟩
      · dsimp only
        rw [hlen0, List.drop_zero, hst, hst0, List.drop_zero]
      · intro k
        have hEA' : evictedAt u (l ++ [e]) k = [] := by
          unfold evictedAt
          rw [hlen0, List.take_zero]
          rfl
        have hEA : evictedAt u l k = [] := by
          unfold evictedAt
          rw [hst0, List.take_zero]
          rfl
        rw [hEA']
        have hh := harch k
        rw [hEA] at hh
        simpa using hh

/-- Claim C4. After any sequence of `add_conversation` calls on a fresh
manager, the short-term log length is `min N threshold` (threshold 10),
the log holds exactly the newest entries (the oldest `N − 10` have been
evicted, one per threshold-crossing add, FIFO), and each archive file
holds exactly the evicted entries keyed to it, in eviction order. -/
theorem C4_short_term_invariant (u : Str) (l : List Entry) :
    (addAll (initMemory u) l).short_term_memory.length =
      min l.length memoryThreshold ∧
    (addAll (initMemory u) l).short_term_memory =
      l.drop (l.length - memoryThreshold) ∧
    ∀ k, ((addAll (initMemory u) l).archive k).getD [] = evictedAt u l k := by
  obtain ⟨hu, hst, harch⟩ := addAll_spec u l
  refine ⟨?_, hst, ?_⟩
  · rw [hst, List.length_drop]
    simp only [memoryThreshold]
    omega
  · intro k
    rw [harch k]
    by_cases hEA : evictedAt u l k = []
    · rw [if_pos hEA, hEA]; rfl
    · rw [if_neg hEA]; rfl

/-- Claim C8. An eviction stores the popped (oldest) entry in the archive
file keyed by that entry's own timestamp's calendar day — reading the
existing file if present, appending, rewriting the whole file, and leaving
every other file untouched; in particular, eleven adds on a fresh manager
put exactly one entry (the oldest) in the file for the oldest entry's
day. -/
theorem C8_eviction_keyed_by_entry_day (s : MemoryState) (oldest : Entry)
    (rest : List Entry) (h : s.short_term_memory = oldest :: rest) :
    (moveToLongTermMemory s).short_term_memory = rest ∧
    (moveToLongTermMemory s).archive (memFilePath s.user_id (dayKey oldest.timestamp)) =
      some ((s.archive (memFilePath s.user_id (dayKey oldest.timestamp))).getD []
        ++ [oldest]) ∧
    (∀ k, k ≠ memFilePath s.user_id (dayKey oldest.timestamp) →
      (moveToLongTermMemory s).archive k = s.archive k) ∧
    ∀ (u : Str) (e : Entry) (tl : List Entry), tl.length = memoryThreshold →
      (addAll (initMemory u) (e :: tl)).archive
        (memFilePath u (dayKey e.timestamp)) = some [e] := by
  rw [moveToLongTermMemory_spec s oldest rest h]
  refine ⟨rfl, ?_, ?_, ?_⟩
  · dsimp only
    rw [if_pos rfl]
  · intro k hk
    dsimp only
    rw [if_neg hk]
  · intro u e tl htl
    obtain ⟨hu, hst, harch⟩ := addAll_spec u (e :: tl)
    have hlen : (e :: tl).length - memoryThreshold = 1 := by
      rw [List.length_cons, htl]
      simp [memoryThreshold]
    have hEA : evictedAt u (e :: tl) (memFilePath u (dayKey e.timestamp)) = [e] := by
      unfold evictedAt
      rw [hlen]
      simp [List.take_succ_cons, List.filter]
    rw [harch _, hEA]
    rfl

def entryW1 : Entry := ⟨⟨2024, 1, 2, 3, 4, 5⟩, "hello".data, "hi there".data⟩
def entryW2 : Entry := ⟨⟨2024, 1, 3, 9, 0, 0⟩, "again".data, "yes".data⟩
def memW : MemoryState := ⟨"alice".data, [entryW1, entryW2], fun _ => none⟩

theorem C8_witness :
    (moveToLongTermMemory memW).short_term_memory = [entryW2] ∧
    (moveToLongTermMemory memW).archive
      (memFilePath "alice".data (dayKey entryW1.timestamp)) = some [entryW1] ∧
    (addAll (initMemory "bob".data) (entryW1 :: List.replicate 10 entryW2)).archive
      (memFilePath "bob".data (dayKey entryW1.timestamp)) = some [entryW1] := by
  have h := C8_eviction_keyed_by_entry_day memW entryW1 [entryW2] rfl
  exact ⟨h.1, h.2.1, h.2.2.2 "bob".data entryW1 (List.replicate 10 entryW2) rfl⟩

/-- Claim C7. The method `recall_memory` always returns a string and never raises:
a date whose archive file is absent yields the "no memory file found"
message, and in general every outcome is one of the five message shapes —
the not-found message, the caught invalid-input message, the caught
unexpected-error message, the empty-file message, or the rendered
entries. -/
theorem C7_recall_never_raises (store : RawStore) (u : Str) (y m d : Int) :
    (store (memFilePath u (recallDateStr y m d)) = none →
      recallMemory store u y m d =
        "No memory file found for the date: ".data ++ recallDateStr y m d) ∧
    (recallMemory store u y m d =
        "No memory file found for the date: ".data ++ recallDateStr y m d ∨
     (∃ msg, recallMemory store u y m d =
        "Error: Invalid date provided. Please provide valid year, month, and day as integers. Details: ".data ++ msg) ∨
     (∃ msg, recallMemory store u y m d =
        "An unexpected error occurred while recalling memory: ".data ++ msg) ∨
     recallMemory store u y m d = "No memories found for ".data ++ recallDateStr y m d ∨
     (∃ ms, recallMemory store u y m d = renderMemories ms)) := by
  simp only [recallMemory]
  cases hs : store (memFilePath u (recallDateStr y m d)) with
  | none => exact ⟨fun _ => rfl, Or.inl rfl⟩
  | some res =>
    refine ⟨fun hcontra => Option.noConfusion hcontra, ?_⟩
    cases res with
    | error err =>
      cases err with
      | valueErr msg => exact Or.inr (Or.inl ⟨msg, rfl⟩)
      | otherErr msg => exact Or.inr (Or.inr (Or.inl ⟨msg, rfl⟩))
    | ok ms =>
      cases ms with
      | nil => exact Or.inr (Or.inr (Or.inr (Or.inl rfl)))
      | cons m0 mrest =>
        exact Or.inr (Or.inr (Or.inr (Or.inr ⟨m0 :: mrest, rfl⟩)))

theorem C7_witness :
    recallMemory (fun _ => none) "alice".data 2023 5 1 =
      "No memory file found for the date: ".data ++ recallDateStr 2023 5 1 := by
  exact (C7_recall_never_raises (fun _ => none) "alice".data 2023 5 1).1 rfl

end Agent
